import Mathlib

/-!
# Verification of the gh-dispatch run watcher

Shallow embedding of the run-watching core of the gh-dispatch CLI:

* `src/github.rs` — the `JobStatus` / `JobConclusion` enums (serde with a
  catch-all `Unknown` variant), the `Job` / `Step` records, and
  `check_run_id_from_url`.
* `src/watcher.rs` — `watch_run`: the polling loop, the per-job progress
  cursor (`job_bars`), the once-per-job annotation fetch (`annotated` set),
  the 30-minute timeout, and the completion decision.
* `src/main.rs` — the mapping from a completed run's conclusion to the
  process exit behaviour.

Network calls are modelled by a `FetchScript`: cycle-indexed responses for
the run fetch, the job-list fetch, and the per-check-run annotation fetch,
each of which may fail (`Except Unit`).  Machine integers (`u32` step
numbers, `u64` ids) are modelled as `Nat`; the only arithmetic performed on
them by the source is comparison and reassignment, so no overflow can occur.
-/

set_option maxRecDepth 8000

/-- Status of a job or step (src/github.rs, `JobStatus`).  The serde derive
carries `#[serde(other)] Unknown`, so deserialization is total. -/
inductive JobStatus
  | queued
  | waiting
  | pending
  | inProgress
  | completed
  | unknown
  deriving DecidableEq

/-- Conclusion of a completed job or step (src/github.rs, `JobConclusion`),
again with a catch-all `Unknown`. -/
inductive JobConclusion
  | success
  | failure
  | cancelled
  | skipped
  | neutral
  | actionRequired
  | timedOut
  | unknown
  deriving DecidableEq

/-- The string-to-variant map generated by serde for `JobStatus`
(`rename_all = "snake_case"`, `#[serde(other)] Unknown`): the five known
snake-case names map to their variants, every other string to `unknown`. -/
def parseJobStatus (s : String) : JobStatus :=
  if s = "queued" then JobStatus.queued
  else if s = "waiting" then JobStatus.waiting
  else if s = "pending" then JobStatus.pending
  else if s = "in_progress" then JobStatus.inProgress
  else if s = "completed" then JobStatus.completed
  else JobStatus.unknown

/-- The string-to-variant map generated by serde for `JobConclusion`. -/
def parseJobConclusion (s : String) : JobConclusion :=
  if s = "success" then JobConclusion.success
  else if s = "failure" then JobConclusion.failure
  else if s = "cancelled" then JobConclusion.cancelled
  else if s = "skipped" then JobConclusion.skipped
  else if s = "neutral" then JobConclusion.neutral
  else if s = "action_required" then JobConclusion.actionRequired
  else if s = "timed_out" then JobConclusion.timedOut
  else JobConclusion.unknown

/-- A single step within a job (src/github.rs, `Step`).  `number` is a `u32`
in the source. -/
structure Step where
  name : String
  number : Nat
  status : JobStatus
  conclusion : Option JobConclusion
  deriving DecidableEq

/-- A single job within a workflow run (src/github.rs, `Job`).  Timestamps
are modelled as integer seconds; they are only read by the display code. -/
structure Job where
  id : Nat
  name : String
  status : JobStatus
  conclusion : Option JobConclusion
  started_at : Option Int
  completed_at : Option Int
  check_run_url : String
  steps : List Step
  deriving DecidableEq

/-- Projection of octocrab's `Run` record to the fields the watcher and
`main` actually read: `status` (a plain string, compared against
"completed") and `conclusion`. -/
structure Run where
  id : Nat
  status : String
  conclusion : Option String
  deriving DecidableEq

/-- A check-run annotation record: level, title, message, each optional
(octocrab's `CheckRunAnnotation`, as read by `format_annotation`). -/
structure CheckAnn where
  level : Option String
  title : Option String
  message : Option String
  deriving DecidableEq

/-- The segment of a character list after the last '/' — the behaviour of
Rust's `url.rsplit('/').next()` for a pattern that always matches at least
the whole string. -/
def lastSegmentChars : List Char → List Char → List Char
  | acc, [] => acc
  | acc, c :: cs => if c = '/' then lastSegmentChars [] cs else lastSegmentChars (acc ++ [c]) cs

/-- The trailing path segment of a URL (after the final '/'; the whole
string when no '/' occurs). -/
def lastSegment (url : String) : String :=
  String.mk (lastSegmentChars [] url.data)

/-- Accumulate a decimal value over a character list; fails on the first
non-ASCII-digit character (Rust's `from_str_radix` digit loop). -/
def parseDigitsAux : Nat → List Char → Option Nat
  | acc, [] => some acc
  | acc, c :: cs =>
    if c.isDigit then parseDigitsAux (acc * 10 + (c.toNat - 48)) cs else none

/-- Rust's `str::parse::<u64>`: an optional leading '+', then one or more
ASCII digits, and the value must fit in 64 bits; anything else is a parse
failure (`None`). -/
def parseU64 (s : String) : Option Nat :=
  let cs := s.data
  let cs := if cs.head? = some '+' then cs.tail else cs
  if cs.isEmpty then none
  else
    match parseDigitsAux 0 cs with
    | some n => if n < 2 ^ 64 then some n else none
    | none => none

/-- Extract the check-run ID (trailing path segment) from a
`check_run_url` (src/github.rs, `check_run_id_from_url`). -/
def check_run_id_from_url (url : String) : Option Nat :=
  parseU64 (lastSegment url)

/-- Poll interval in seconds (src/watcher.rs, `POLL_INTERVAL`). -/
def POLL_INTERVAL : Nat := 5

/-- Maximum wait in seconds (src/watcher.rs, `MAX_WAIT`): 30 minutes. -/
def MAX_WAIT : Nat := 30 * 60

/-- Render events pushed to the terminal by `watch_run`: a completed step
printed once, the per-job spinner message refresh, and one line per fetched
annotation. -/
inductive Event
  | stepCompleted (jobId : Nat) (number : Nat) (name : String) (conclusion : Option JobConclusion)
  | jobUpdated (job : Job)
  | annEmitted (jobId : Nat) (ann : CheckAnn)
  deriving DecidableEq

/-- Whether an event is a step-completion line. -/
def Event.isStepEv : Event → Bool
  | Event.stepCompleted _ _ _ _ => true
  | _ => false

/-- Whether an event is an annotation line. -/
def Event.isAnnEv : Event → Bool
  | Event.annEmitted _ _ => true
  | _ => false

/-- The step numbers carried by the step-completion events of a list, in
emission order. -/
def stepNumbersOf (evs : List Event) : List Nat :=
  evs.filterMap fun e =>
    match e with
    | Event.stepCompleted _ n _ _ => some n
    | _ => none

/-- The mutable session state of `watch_run`: `lastStep` is the `u32` kept
next to each job's progress bar in `job_bars` (0 when the entry was just
inserted), `annotated` is the `HashSet` of job ids whose annotations were
already fetched.  Both are total over ids, with the map-miss defaults. -/
structure WatchState where
  lastStep : Nat → Nat
  annotated : Nat → Bool

/-- The state at the start of a watch session: empty `job_bars` map (every
cursor reads as 0) and empty `annotated` set. -/
def initState : WatchState :=
  { lastStep := fun _ => 0, annotated := fun _ => false }

/-- Scripted responses of the external GitHub client, indexed by poll cycle:
the run fetch, the job-list fetch, and the annotation fetch (also keyed by
check-run id).  An `error` models a failed network call. -/
structure FetchScript where
  runResp : Nat → Except Unit Run
  jobsResp : Nat → Except Unit (List Job)
  annResp : Nat → Nat → Except Unit (List CheckAnn)

/-- The `new_steps` filter of src/watcher.rs line 56: steps whose number is
strictly above the cursor and whose status is completed, in array order. -/
def newSteps (steps : List Step) (last : Nat) : List Step :=
  steps.filter fun s => decide (last < s.number) && decide (s.status = JobStatus.completed)

/-- The step-completion print loop of src/watcher.rs lines 61-70, as events. -/
def stepEvents (jobId : Nat) (ns : List Step) : List Event :=
  ns.map fun s => Event.stepCompleted jobId s.number s.name s.conclusion

/-- The cursor update of the same loop: `*last_step = step.number` on every
iteration, so the final cursor is the number of the LAST iterated new step
(the cursor is unchanged when no new step exists). -/
def advanceCursor (last : Nat) (ns : List Step) : Nat :=
  ns.foldl (fun _ s => s.number) last

/-- The cursor write-back into `job_bars`: after the step print loop the
job's cursor holds `advanceCursor` of its previous value. -/
def cursorUpd (st : WatchState) (job : Job) : WatchState :=
  { st with lastStep := fun i =>
      if i = job.id then advanceCursor (st.lastStep job.id) (newSteps job.steps (st.lastStep job.id))
      else st.lastStep i }

/-- The `annotated.insert(job.id)` set update. -/
def markUpd (st : WatchState) (jid : Nat) : WatchState :=
  { st with annotated := fun i => if i = jid then true else st.annotated i }

/-- The events a job prints in one cycle before any annotations: its newly
completed steps, then the spinner-message refresh. -/
def cycleEvs (st : WatchState) (job : Job) : List Event :=
  stepEvents job.id (newSteps job.steps (st.lastStep job.id)) ++ [Event.jobUpdated job]

/-- One job's share of a polling cycle (src/watcher.rs lines 43-89): filter
and print newly completed steps, update the cursor, refresh the spinner
message, and — when the job is completed, its check-run URL parses, and the
job id is newly inserted into `annotated` — fetch and print its
annotations.  Returns the new state, the events emitted, and the annotation
fetch calls performed as (cycle, job id, check-run id) triples; a failed
annotation fetch propagates as an error (`?` operator). -/
def processJob (script : FetchScript) (cycle : Nat) (st : WatchState) (job : Job) :
    Except Unit (WatchState × List Event × List (Nat × Nat × Nat)) :=
  let st1 := cursorUpd st job
  let evs := cycleEvs st job
  if job.status = JobStatus.completed then
    match check_run_id_from_url job.check_run_url with
    | some crid =>
      if st1.annotated job.id then Except.ok (st1, evs, [])
      else
        match script.annResp cycle crid with
        | Except.ok anns =>
          Except.ok (markUpd st1 job.id, evs ++ anns.map (fun a => Event.annEmitted job.id a),
            [(cycle, job.id, crid)])
        | Except.error e => Except.error e
    | none => Except.ok (st1, evs, [])
  else Except.ok (st1, evs, [])

/-- The `for job in &jobs` loop of one polling cycle, threading the session
state through `processJob` and concatenating events and fetch calls; the
first error aborts the cycle. -/
def processJobs (script : FetchScript) (cycle : Nat) (st : WatchState) :
    List Job → Except Unit (WatchState × List Event × List (Nat × Nat × Nat))
  | [] => Except.ok (st, [], [])
  | j :: rest =>
    match processJob script cycle st j with
    | Except.error e => Except.error e
    | Except.ok (st', evs, calls) =>
      match processJobs script cycle st' rest with
      | Except.error e => Except.error e
      | Except.ok (st'', evs', calls') => Except.ok (st'', evs ++ evs', calls ++ calls')

/-- Terminal outcome of a watch session: the run returned on completion, the
timeout bail, a fatal fetch failure, or exhausted modelling fuel (never
reached when enough fuel is supplied). -/
inductive WatchResult
  | done (r : Run)
  | timedOut
  | failed
  | fuelOut
  deriving DecidableEq

/-- Result of a watch session together with the number of polling cycles
performed (run fetches attempted) and the cycle-tagged events emitted. -/
structure WatchOutcome where
  result : WatchResult
  polls : Nat
  events : List (Nat × Event)

/-- The polling loop of `watch_run` (src/watcher.rs lines 34-102): check the
elapsed-time ceiling BEFORE polling, fetch the run, fetch the jobs, process
every job, and stop when the run's top-level status string is "completed";
otherwise sleep one interval and repeat.  `t` is the elapsed time, advanced
by `I` at each sleep; `fuel` bounds the recursion and is irrelevant for any
session that terminates within it. -/
def watchAux (script : FetchScript) (W I : Nat) (fuel t cycle : Nat) (st : WatchState)
    (acc : List (Nat × Event)) : WatchOutcome :=
  if W < t then ⟨WatchResult.timedOut, cycle, acc⟩
  else
    match fuel with
    | 0 => ⟨WatchResult.fuelOut, cycle, acc⟩
    | fuel' + 1 =>
      match script.runResp cycle with
      | Except.error _ => ⟨WatchResult.failed, cycle + 1, acc⟩
      | Except.ok run =>
        match script.jobsResp cycle with
        | Except.error _ => ⟨WatchResult.failed, cycle + 1, acc⟩
        | Except.ok jobs =>
          match processJobs script cycle st jobs with
          | Except.error _ => ⟨WatchResult.failed, cycle + 1, acc⟩
          | Except.ok (st', evs, _) =>
            if run.status = "completed" then
              ⟨WatchResult.done run, cycle + 1, acc ++ evs.map (fun e => (cycle, e))⟩
            else
              watchAux script W I fuel' (t + I) (cycle + 1) st'
                (acc ++ evs.map (fun e => (cycle, e)))

/-- `watch_run` with the source's constants: 5-second interval, 30-minute
ceiling, starting from an empty session state. -/
def watchRun (script : FetchScript) (fuel : Nat) : WatchOutcome :=
  watchAux script MAX_WAIT POLL_INTERVAL fuel 0 0 initState []

/-- Drive the per-job reconciliation over a sequence of snapshots of one
job, one snapshot per cycle: the per-job projection of the watch loop (the
session state is keyed by job id, so one job's cursor evolves independently
of the other jobs in the run).  Returns the final state, the events of each
cycle, and the annotation fetch calls. -/
def feedSnapshots (script : FetchScript) :
    Nat → WatchState → List Job → Except Unit (WatchState × List (List Event) × List (Nat × Nat × Nat))
  | _, st, [] => Except.ok (st, [], [])
  | c, st, j :: rest =>
    match processJob script c st j with
    | Except.error e => Except.error e
    | Except.ok (st', evs, calls) =>
      match feedSnapshots script (c + 1) st' rest with
      | Except.error e => Except.error e
      | Except.ok (st'', evss, calls') => Except.ok (st'', evs :: evss, calls ++ calls')

/-- The per-cycle event lists of a snapshot sequence (empty on a failed
session). -/
def feedEvents (script : FetchScript) (c : Nat) (st : WatchState) (snaps : List Job) :
    List (List Event) :=
  match feedSnapshots script c st snaps with
  | Except.ok (_, evss, _) => evss
  | Except.error _ => []

/-- The annotation fetch calls of a snapshot sequence (empty on a failed
session). -/
def feedCalls (script : FetchScript) (c : Nat) (st : WatchState) (snaps : List Job) :
    List (Nat × Nat × Nat) :=
  match feedSnapshots script c st snaps with
  | Except.ok (_, _, calls) => calls
  | Except.error _ => []

/-- The final session state of a snapshot sequence (the initial state on a
failed session). -/
def feedFinal (script : FetchScript) (c : Nat) (st : WatchState) (snaps : List Job) :
    WatchState :=
  match feedSnapshots script c st snaps with
  | Except.ok (st', _, _) => st'
  | Except.error _ => st

/-- Index of the first snapshot with completed status in a snapshot
sequence, used to state when the one annotation fetch happens. -/
def firstCompleted : List Job → Option Nat
  | [] => none
  | j :: rest =>
    if j.status = JobStatus.completed then some 0 else (firstCompleted rest).map (· + 1)

/-- Exit behaviour computed by `main` from a completed run's conclusion
(src/main.rs lines 122-130): `success` prints a success line and returns
normally, `failure` becomes a process error (`bail!`), `cancelled` prints a
warning and returns normally, and every other value — including an absent
conclusion, defaulted to "unknown" — prints an informational line and
returns normally. -/
inductive ExitOutcome
  | successNormal
  | failureError
  | cancelledWarn
  | infoOther (s : String)
  deriving DecidableEq

/-- The conclusion match of src/main.rs lines 122-130. -/
def conclusionOutcome (conclusion : Option String) : ExitOutcome :=
  let s := conclusion.getD "unknown"
  if s = "success" then ExitOutcome.successNormal
  else if s = "failure" then ExitOutcome.failureError
  else if s = "cancelled" then ExitOutcome.cancelledWarn
  else ExitOutcome.infoOther s

/-- Whether an exit outcome is an error to the caller (`bail!` in `main`). -/
def outcomeIsError : ExitOutcome → Bool
  | ExitOutcome.failureError => true
  | _ => false

/-- A job's reconciliation never fails when every annotation fetch of the
script succeeds. -/
lemma processJob_ok (script : FetchScript) (c : Nat) (st : WatchState) (j : Job)
    (hann : ∀ cy i, ∃ a, script.annResp cy i = Except.ok a) :
    ∃ out, processJob script c st j = Except.ok out := by
  simp only [processJob]
  split
  · split
    · split
      · exact ⟨_, rfl⟩
      · obtain ⟨a, ha⟩ := hann c _
        rw [ha]
        exact ⟨_, rfl⟩
    · exact ⟨_, rfl⟩
  · exact ⟨_, rfl⟩

/-- A whole cycle's job loop never fails when every annotation fetch of the
script succeeds. -/
lemma processJobs_ok (script : FetchScript)
    (hann : ∀ cy i, ∃ a, script.annResp cy i = Except.ok a) :
    ∀ (jobs : List Job) (c : Nat) (st : WatchState),
      ∃ st' evs calls, processJobs script c st jobs = Except.ok (st', evs, calls) := by
  intro jobs
  induction jobs with
  | nil => intro c st; exact ⟨st, [], [], rfl⟩
  | cons j rest ih =>
    intro c st
    obtain ⟨⟨st', evs, calls⟩, hj⟩ := processJob_ok script c st j hann
    obtain ⟨st'', evs', calls', hr⟩ := ih c st'
    exact ⟨st'', evs ++ evs', calls ++ calls', by simp only [processJobs, hj, hr]⟩

/-- Timeout behaviour of the polling loop: with the time invariant
`t = cycle * I`, a run that never completes drives the loop to `timedOut`
after exactly `W / I + 1` polls. -/
lemma watch_timeout_aux (script : FetchScript) (W I : Nat) (hI : 0 < I)
    (hrun : ∀ c, ∃ r, script.runResp c = Except.ok r ∧ r.status ≠ "completed")
    (hjobs : ∀ c, ∃ js, script.jobsResp c = Except.ok js)
    (hann : ∀ c i, ∃ a, script.annResp c i = Except.ok a) :
    ∀ (fuel cycle : Nat) (st : WatchState) (acc : List (Nat × Event)),
      cycle ≤ W / I + 1 → W / I + 2 ≤ fuel + cycle →
      (watchAux script W I fuel (cycle * I) cycle st acc).result = WatchResult.timedOut ∧
      (watchAux script W I fuel (cycle * I) cycle st acc).polls = W / I + 1 := by
  intro fuel
  induction fuel with
  | zero => intro cycle st acc hc hf; omega
  | succ f ih =>
    intro cycle st acc hc hf
    by_cases ht : W < cycle * I
    · have hcy : W / I + 1 ≤ cycle := by
        by_contra h
        push_neg at h
        have h1 : cycle ≤ W / I := by omega
        have h2 : cycle * I ≤ W / I * I := Nat.mul_le_mul_right I h1
        have h3 : W / I * I ≤ W := Nat.div_mul_le_self W I
        exact absurd ht (Nat.not_lt.2 (le_trans h2 h3))
      have hcy' : cycle = W / I + 1 := le_antisymm hc hcy
      subst hcy'
      constructor <;> simp [watchAux, if_pos ht]
    · have htle : cycle * I ≤ W := Nat.le_of_not_lt ht
      have hcd : cycle ≤ W / I := (Nat.le_div_iff_mul_le hI).2 htle
      obtain ⟨r, hr, hrs⟩ := hrun cycle
      obtain ⟨js, hjs⟩ := hjobs cycle
      obtain ⟨st', evs, calls, hpj⟩ := processJobs_ok script hann js cycle st
      have hmul : cycle * I + I = (cycle + 1) * I := (Nat.succ_mul cycle I).symm
      have hstep : watchAux script W I (f + 1) (cycle * I) cycle st acc =
          watchAux script W I f ((cycle + 1) * I) (cycle + 1) st'
            (acc ++ evs.map (fun e => (cycle, e))) := by
        rw [← hmul]
        simp [watchAux, if_neg ht, hr, hjs, hpj, hrs]
      rw [hstep]
      exact ih (cycle + 1) st' (acc ++ evs.map (fun e => (cycle, e))) (by omega) (by omega)

/-- Completion behaviour of the polling loop: if the run first reports
"completed" on the poll `m` cycles ahead and the timeout is not hit before
then, the loop returns that run after exactly `m + 1` further polls. -/
lemma watch_done_aux (script : FetchScript) (W I : Nat) (rN : Run)
    (hNs : rN.status = "completed")
    (hjobs : ∀ c, ∃ js, script.jobsResp c = Except.ok js)
    (hann : ∀ c i, ∃ a, script.annResp c i = Except.ok a) :
    ∀ (m fuel t cycle : Nat) (st : WatchState) (acc : List (Nat × Event)),
      (∀ k, k < m → ∃ r, script.runResp (cycle + k) = Except.ok r ∧ r.status ≠ "completed") →
      script.runResp (cycle + m) = Except.ok rN →
      t + m * I ≤ W → m + 1 ≤ fuel →
      (watchAux script W I fuel t cycle st acc).result = WatchResult.done rN ∧
      (watchAux script W I fuel t cycle st acc).polls = cycle + m + 1 := by
  intro m
  induction m with
  | zero =>
    intro fuel t cycle st acc hrun hN htime hfuel
    obtain ⟨f, rfl⟩ : ∃ f, fuel = f + 1 := ⟨fuel - 1, by omega⟩
    have ht : ¬ W < t := by omega
    obtain ⟨js, hjs⟩ := hjobs cycle
    obtain ⟨st', evs, calls, hpj⟩ := processJobs_ok script hann js cycle st
    rw [Nat.add_zero] at hN
    constructor <;> simp [watchAux, if_neg ht, hN, hjs, hpj, hNs]
  | succ m ih =>
    intro fuel t cycle st acc hrun hN htime hfuel
    obtain ⟨f, rfl⟩ : ∃ f, fuel = f + 1 := ⟨fuel - 1, by omega⟩
    have htW : t ≤ W := le_trans (Nat.le_add_right t ((m + 1) * I)) htime
    have ht : ¬ W < t := Nat.not_lt.2 htW
    obtain ⟨r0, hr0, hr0s⟩ := hrun 0 (by omega)
    rw [Nat.add_zero] at hr0
    obtain ⟨js, hjs⟩ := hjobs cycle
    obtain ⟨st', evs, calls, hpj⟩ := processJobs_ok script hann js cycle st
    have hstep : watchAux script W I (f + 1) t cycle st acc =
        watchAux script W I f (t + I) (cycle + 1) st'
          (acc ++ evs.map (fun e => (cycle, e))) := by
      simp [watchAux, if_neg ht, hr0, hjs, hpj, hr0s]
    rw [hstep]
    have htime' : t + I + m * I ≤ W := by
      rw [Nat.succ_mul] at htime
      generalize m * I = p at htime ⊢
      omega
    have h := ih f (t + I) (cycle + 1) st' (acc ++ evs.map (fun e => (cycle, e)))
      (fun k hk => by
        have hx := hrun (k + 1) (by omega)
        rwa [show cycle + (k + 1) = cycle + 1 + k by omega] at hx)
      (by rwa [show cycle + (m + 1) = cycle + 1 + m by omega] at hN)
      htime' (by omega)
    exact ⟨h.1, by rw [h.2]; omega⟩

/-- Failure behaviour of the polling loop: after `m` clean cycles with empty
job lists, a failed fetch (run, jobs, or job processing, i.e. annotations)
on the next cycle ends the session as `failed` with no further polls. -/
lemma watch_fail_aux (script : FetchScript) (W I : Nat) :
    ∀ (m fuel t cycle : Nat) (acc : List (Nat × Event)),
      (∀ k, k < m → ∃ r, script.runResp (cycle + k) = Except.ok r ∧ r.status ≠ "completed") →
      (∀ k, k < m → script.jobsResp (cycle + k) = Except.ok []) →
      (script.runResp (cycle + m) = Except.error () ∨
        (∃ r, script.runResp (cycle + m) = Except.ok r ∧
          script.jobsResp (cycle + m) = Except.error ()) ∨
        (∃ r js, script.runResp (cycle + m) = Except.ok r ∧
          script.jobsResp (cycle + m) = Except.ok js ∧
          processJobs script (cycle + m) initState js = Except.error ())) →
      t + m * I ≤ W → m + 1 ≤ fuel →
      (watchAux script W I fuel t cycle initState acc).result = WatchResult.failed ∧
      (watchAux script W I fuel t cycle initState acc).polls = cycle + m + 1 := by
  intro m
  induction m with
  | zero =>
    intro fuel t cycle acc hrun hjobs hfail htime hfuel
    obtain ⟨f, rfl⟩ : ∃ f, fuel = f + 1 := ⟨fuel - 1, by omega⟩
    have ht : ¬ W < t := by omega
    rw [Nat.add_zero] at hfail
    rcases hfail with herr | ⟨r, hr, hje⟩ | ⟨r, js, hr, hjs, hpe⟩
    · constructor <;> simp [watchAux, if_neg ht, herr]
    · constructor <;> simp [watchAux, if_neg ht, hr, hje]
    · constructor <;> simp [watchAux, if_neg ht, hr, hjs, hpe]
  | succ m ih =>
    intro fuel t cycle acc hrun hjobs hfail htime hfuel
    obtain ⟨f, rfl⟩ : ∃ f, fuel = f + 1 := ⟨fuel - 1, by omega⟩
    have htW : t ≤ W := le_trans (Nat.le_add_right t ((m + 1) * I)) htime
    have ht : ¬ W < t := Nat.not_lt.2 htW
    obtain ⟨r0, hr0, hr0s⟩ := hrun 0 (by omega)
    rw [Nat.add_zero] at hr0
    have hj0 := hjobs 0 (by omega)
    rw [Nat.add_zero] at hj0
    have hstep : watchAux script W I (f + 1) t cycle initState acc =
        watchAux script W I f (t + I) (cycle + 1) initState (acc ++ []) := by
      simp [watchAux, if_neg ht, hr0, hj0, hr0s, processJobs]
    rw [hstep]
    have htime' : t + I + m * I ≤ W := by
      rw [Nat.succ_mul] at htime
      generalize m * I = p at htime ⊢
      omega
    have h := ih f (t + I) (cycle + 1) (acc ++ [])
      (fun k hk => by
        have hx := hrun (k + 1) (by omega)
        rwa [show cycle + (k + 1) = cycle + 1 + k by omega] at hx)
      (fun k hk => by
        have hx := hjobs (k + 1) (by omega)
        rwa [show cycle + (k + 1) = cycle + 1 + k by omega] at hx)
      (by rwa [show cycle + (m + 1) = cycle + 1 + m by omega] at hfail)
      htime' (by omega)
    exact ⟨h.1, by rw [h.2]; omega⟩

/-- C6: given a run that never reaches completed, with maximum wait `W` and
poll interval `I`, the watch loop transitions to `timedOut` (a fatal error,
no run returned) once the elapsed time exceeds `W`, having performed at most
`ceil(W / I) + 1` polls (in the discrete time model it performs exactly
`W / I + 1`, the elapsed-time check running before each poll); in the
reference configuration `MAX_WAIT` is 360 times `POLL_INTERVAL`, i.e. 30
minutes with a 5-second interval. -/
theorem c6_timeout_bound (W I fuel : Nat) (script : FetchScript) (hI : 0 < I)
    (hrun : ∀ c, ∃ r, script.runResp c = Except.ok r ∧ r.status ≠ "completed")
    (hjobs : ∀ c, ∃ js, script.jobsResp c = Except.ok js)
    (hann : ∀ c i, ∃ a, script.annResp c i = Except.ok a)
    (hfuel : W / I + 2 ≤ fuel) :
    (watchAux script W I fuel 0 0 initState []).result = WatchResult.timedOut ∧
    (watchAux script W I fuel 0 0 initState []).polls = W / I + 1 ∧
    W / I + 1 ≤ (W + I - 1) / I + 1 ∧
    MAX_WAIT = 360 * POLL_INTERVAL ∧ MAX_WAIT = 30 * 60 ∧ POLL_INTERVAL = 5 := by
  have h := watch_timeout_aux script W I hI hrun hjobs hann fuel 0 initState []
    (Nat.zero_le _) (by rw [Nat.add_zero]; exact hfuel)
  rw [Nat.zero_mul] at h
  refine ⟨h.1, h.2, ?_, by decide, by decide, by decide⟩
  exact Nat.add_le_add_right (Nat.div_le_div_right (by omega)) 1

/-- A script whose run never completes and whose other fetches always
succeed, used to witness the timeout theorem. -/
def scriptNever : FetchScript :=
  { runResp := fun _ => Except.ok { id := 7, status := "queued", conclusion := none },
    jobsResp := fun _ => Except.ok [],
    annResp := fun _ _ => Except.ok [] }

/-- Witness for C6 at `W = 10`, `I = 5`: the loop times out after exactly
three polls (at elapsed times 0, 5 and 10). -/
theorem c6_timeout_bound_witness :
    (watchAux scriptNever 10 5 4 0 0 initState []).result = WatchResult.timedOut ∧
    (watchAux scriptNever 10 5 4 0 0 initState []).polls = 3 := by
  have h := c6_timeout_bound 10 5 4 scriptNever (by decide)
    (fun _ => ⟨{ id := 7, status := "queued", conclusion := none }, rfl, by decide⟩)
    (fun _ => ⟨[], rfl⟩) (fun _ _ => ⟨[], rfl⟩) (by decide)
  exact ⟨h.1, by simpa using h.2.1⟩

/-- C5: given a scripted sequence of fetch responses in which the run's
status first reads "completed" on the (n+1)-st poll, the watch loop returns
`done` with that run record after exactly n+1 polls and performs no
further polls.  The job lists are arbitrary (in particular, every job may
already be completed in earlier cycles): completion is decided solely by
the run's top-level status. -/
theorem c5_run_completion (n fuel : Nat) (script : FetchScript) (rN : Run)
    (hrun : ∀ k, k < n → ∃ r, script.runResp k = Except.ok r ∧ r.status ≠ "completed")
    (hN : script.runResp n = Except.ok rN) (hNs : rN.status = "completed")
    (hjobs : ∀ c, ∃ js, script.jobsResp c = Except.ok js)
    (hann : ∀ c i, ∃ a, script.annResp c i = Except.ok a)
    (htime : n * POLL_INTERVAL ≤ MAX_WAIT) (hfuel : n + 1 ≤ fuel) :
    (watchRun script fuel).result = WatchResult.done rN ∧
    (watchRun script fuel).polls = n + 1 := by
  have h := watch_done_aux script MAX_WAIT POLL_INTERVAL rN hNs hjobs hann n fuel 0 0
    initState [] (fun k hk => by simpa using hrun k hk) (by simpa using hN)
    (by simpa using htime) hfuel
  exact ⟨h.1, by simpa using h.2⟩

/-- A script that completes on the second poll, with a job list whose only
job is already completed from the first cycle on (its annotations fetch
succeeds), used to witness the completion theorem. -/
def scriptC5 : FetchScript :=
  { runResp := fun c =>
      if c = 0 then Except.ok { id := 7, status := "in_progress", conclusion := none }
      else Except.ok { id := 7, status := "completed", conclusion := some "success" },
    jobsResp := fun _ => Except.ok
      [ { id := 3, name := "build", status := JobStatus.completed,
          conclusion := some JobConclusion.success, started_at := none,
          completed_at := none, check_run_url := "cr/3", steps := [] } ],
    annResp := fun _ _ => Except.ok [] }

/-- Witness for C5: the run completes on the second poll (n = 1), so the
loop returns `done` with exactly two polls, even though the single job is
already completed during the first cycle. -/
theorem c5_run_completion_witness :
    (watchRun scriptC5 5).result =
      WatchResult.done { id := 7, status := "completed", conclusion := some "success" } ∧
    (watchRun scriptC5 5).polls = 2 := by
  have h := c5_run_completion 1 5 scriptC5
    { id := 7, status := "completed", conclusion := some "success" }
    (fun k hk => by
      match k, hk with
      | 0, _ => exact ⟨{ id := 7, status := "in_progress", conclusion := none }, rfl, by decide⟩)
    rfl rfl (fun _ => ⟨_, rfl⟩) (fun _ _ => ⟨[], rfl⟩) (by decide) (by decide)
  exact h

/-- C7: any fetch failure — the run fetch, the job-list fetch, or a job's
annotation fetch (the only failure source inside job processing) — aborts
the cycle in which it occurs and terminates the watch session as `failed`,
with no retry: the session performs exactly the polls up to and including
the failing cycle. -/
theorem c7_fetch_failure_fatal (n fuel : Nat) (script : FetchScript)
    (hrun : ∀ k, k < n → ∃ r, script.runResp k = Except.ok r ∧ r.status ≠ "completed")
    (hjobs : ∀ k, k < n → script.jobsResp k = Except.ok [])
    (hfail : script.runResp n = Except.error () ∨
      (∃ r, script.runResp n = Except.ok r ∧ script.jobsResp n = Except.error ()) ∨
      (∃ r js, script.runResp n = Except.ok r ∧ script.jobsResp n = Except.ok js ∧
        processJobs script n initState js = Except.error ()))
    (htime : n * POLL_INTERVAL ≤ MAX_WAIT) (hfuel : n + 1 ≤ fuel) :
    (watchRun script fuel).result = WatchResult.failed ∧
    (watchRun script fuel).polls = n + 1 := by
  have h := watch_fail_aux script MAX_WAIT POLL_INTERVAL n fuel 0 0 []
    (fun k hk => by simpa using hrun k hk) (fun k hk => by simpa using hjobs k hk)
    (by simpa using hfail) (by simpa using htime) hfuel
  exact ⟨h.1, by simpa using h.2⟩

/-- A script whose first cycle delivers a completed job with a parseable
check-run URL whose annotation fetch fails, used to witness the
fetch-failure theorem. -/
def scriptC7 : FetchScript :=
  { runResp := fun _ => Except.ok { id := 7, status := "in_progress", conclusion := none },
    jobsResp := fun _ => Except.ok
      [ { id := 3, name := "build", status := JobStatus.completed,
          conclusion := some JobConclusion.success, started_at := none,
          completed_at := none, check_run_url := "cr/3", steps := [] } ],
    annResp := fun _ _ => Except.error () }

/-- Witness for C7: a failed annotation fetch on the very first cycle ends
the session as `failed` after exactly one poll. -/
theorem c7_fetch_failure_fatal_witness :
    (watchRun scriptC7 5).result = WatchResult.failed ∧
    (watchRun scriptC7 5).polls = 1 := by
  have h := c7_fetch_failure_fatal 0 5 scriptC7
    (fun k hk => absurd hk (by omega)) (fun k hk => absurd hk (by omega))
    (Or.inr (Or.inr ⟨{ id := 7, status := "in_progress", conclusion := none }, _, rfl, rfl,
      rfl⟩))
    (by decide) (by decide)
  exact h

/-- Branch lemma: a job that is not completed only moves its cursor and
prints its step/update events; no annotation activity. -/
lemma processJob_not_completed (script : FetchScript) (c : Nat) (st : WatchState) (j : Job)
    (hj : j.status ≠ JobStatus.completed) :
    processJob script c st j = Except.ok (cursorUpd st j, cycleEvs st j, []) := by
  simp [processJob, hj]

/-- Branch lemma: a completed job whose check-run URL does not parse is
silently skipped for annotations. -/
lemma processJob_completed_nourl (script : FetchScript) (c : Nat) (st : WatchState) (j : Job)
    (hj : j.status = JobStatus.completed) (hu : check_run_id_from_url j.check_run_url = none) :
    processJob script c st j = Except.ok (cursorUpd st j, cycleEvs st j, []) := by
  simp [processJob, hj, hu]

/-- Branch lemma: a completed job already in the `annotated` set performs no
annotation fetch. -/
lemma processJob_completed_marked (script : FetchScript) (c : Nat) (st : WatchState) (j : Job)
    (crid : Nat) (hj : j.status = JobStatus.completed)
    (hu : check_run_id_from_url j.check_run_url = some crid) (hm : st.annotated j.id = true) :
    processJob script c st j = Except.ok (cursorUpd st j, cycleEvs st j, []) := by
  simp [processJob, hj, hu, cursorUpd, hm]

/-- Branch lemma: a completed, not-yet-annotated job with a parseable URL is
marked and its annotation fetch performed; on success the annotations are
appended after the job's other events. -/
lemma processJob_completed_fresh (script : FetchScript) (c : Nat) (st : WatchState) (j : Job)
    (crid : Nat) (anns : List CheckAnn) (hj : j.status = JobStatus.completed)
    (hu : check_run_id_from_url j.check_run_url = some crid) (hm : st.annotated j.id = false)
    (ha : script.annResp c crid = Except.ok anns) :
    processJob script c st j = Except.ok (markUpd (cursorUpd st j) j.id,
      cycleEvs st j ++ anns.map (fun a => Event.annEmitted j.id a), [(c, j.id, crid)]) := by
  simp [processJob, hj, hu, cursorUpd, hm, ha]

/-- Branch lemma: when the annotation fetch of a fresh completed job fails,
the job id is inserted into `annotated` first, and the failure then aborts
the whole cycle (`?`), terminating the session. -/
lemma processJob_completed_fresh_err (script : FetchScript) (c : Nat) (st : WatchState) (j : Job)
    (crid : Nat) (hj : j.status = JobStatus.completed)
    (hu : check_run_id_from_url j.check_run_url = some crid) (hm : st.annotated j.id = false)
    (ha : script.annResp c crid = Except.error ()) :
    processJob script c st j = Except.error () := by
  simp [processJob, hj, hu, cursorUpd, hm, ha]

/-- C8: parsing a job or step status or conclusion is total: every string
outside the known snake-case enumeration is coerced to the `unknown`
sentinel, and reconciliation of a job carrying the `unknown` status never
aborts (it still produces its events). -/
theorem c8_unknown_status_coerced :
    (∀ s : String,
      s ∉ (["queued", "waiting", "pending", "in_progress", "completed"] : List String) →
      parseJobStatus s = JobStatus.unknown) ∧
    (∀ s : String,
      s ∉ (["success", "failure", "cancelled", "skipped", "neutral", "action_required",
        "timed_out"] : List String) →
      parseJobConclusion s = JobConclusion.unknown) ∧
    (∀ (script : FetchScript) (c : Nat) (st : WatchState) (j : Job),
      j.status = JobStatus.unknown →
      processJob script c st j = Except.ok (cursorUpd st j, cycleEvs st j, [])) := by
  refine ⟨?_, ?_, ?_⟩
  · intro s hs
    have h1 : s ≠ "queued" := fun h => hs (by rw [h]; decide)
    have h2 : s ≠ "waiting" := fun h => hs (by rw [h]; decide)
    have h3 : s ≠ "pending" := fun h => hs (by rw [h]; decide)
    have h4 : s ≠ "in_progress" := fun h => hs (by rw [h]; decide)
    have h5 : s ≠ "completed" := fun h => hs (by rw [h]; decide)
    simp [parseJobStatus, h1, h2, h3, h4, h5]
  · intro s hs
    have h1 : s ≠ "success" := fun h => hs (by rw [h]; decide)
    have h2 : s ≠ "failure" := fun h => hs (by rw [h]; decide)
    have h3 : s ≠ "cancelled" := fun h => hs (by rw [h]; decide)
    have h4 : s ≠ "skipped" := fun h => hs (by rw [h]; decide)
    have h5 : s ≠ "neutral" := fun h => hs (by rw [h]; decide)
    have h6 : s ≠ "action_required" := fun h => hs (by rw [h]; decide)
    have h7 : s ≠ "timed_out" := fun h => hs (by rw [h]; decide)
    simp [parseJobConclusion, h1, h2, h3, h4, h5, h6, h7]
  · intro script c st j hj
    exact processJob_not_completed script c st j (by rw [hj]; decide)

/-- A trivial script (run stays in progress, no jobs, annotation fetches
return an empty list), used by several concrete evaluations. -/
def script0 : FetchScript :=
  { runResp := fun _ => Except.ok { id := 7, status := "in_progress", conclusion := none },
    jobsResp := fun _ => Except.ok [],
    annResp := fun _ _ => Except.ok [] }

/-- A job whose status string is unrecognized, used to witness C8. -/
def jobUnknownStatus : Job :=
  { id := 2, name := "deploy", status := JobStatus.unknown, conclusion := none,
    started_at := none, completed_at := none, check_run_url := "cr/2", steps := [] }

/-- Witness for C8: the unrecognized strings "bogus" and "stale" coerce to
`unknown`, and a job with `unknown` status is still reconciled normally. -/
theorem c8_unknown_status_coerced_witness :
    parseJobStatus "bogus" = JobStatus.unknown ∧
    parseJobConclusion "stale" = JobConclusion.unknown ∧
    processJob script0 0 initState jobUnknownStatus =
      Except.ok (cursorUpd initState jobUnknownStatus, cycleEvs initState jobUnknownStatus, []) :=
  ⟨c8_unknown_status_coerced.1 "bogus" (by decide),
   c8_unknown_status_coerced.2.1 "stale" (by decide),
   c8_unknown_status_coerced.2.2 script0 0 initState jobUnknownStatus rfl⟩

/-- C9: `main`'s mapping from a completed run's conclusion to exit
behaviour: "success" returns normally, "failure" is surfaced as an error
(`bail!`), "cancelled" is a non-error warning, and any other value —
including an absent conclusion, defaulted to "unknown" — is a non-error
informational outcome. -/
theorem c9_conclusion_exit_map :
    conclusionOutcome (some "success") = ExitOutcome.successNormal ∧
    conclusionOutcome (some "failure") = ExitOutcome.failureError ∧
    conclusionOutcome (some "cancelled") = ExitOutcome.cancelledWarn ∧
    conclusionOutcome none = ExitOutcome.infoOther "unknown" ∧
    (∀ s : String, s ∉ (["success", "failure", "cancelled"] : List String) →
      conclusionOutcome (some s) = ExitOutcome.infoOther s) ∧
    (∀ o : ExitOutcome, outcomeIsError o = true ↔ o = ExitOutcome.failureError) := by
  refine ⟨by decide, by decide, by decide, by decide, ?_, ?_⟩
  · intro s hs
    have h1 : s ≠ "success" := fun h => hs (by rw [h]; decide)
    have h2 : s ≠ "failure" := fun h => hs (by rw [h]; decide)
    have h3 : s ≠ "cancelled" := fun h => hs (by rw [h]; decide)
    simp [conclusionOutcome, h1, h2, h3]
  · intro o
    cases o <;> simp [outcomeIsError]

/-- Witness for C9: the conclusion "neutral" (outside the three known
values) is passed through as a non-error informational outcome. -/
theorem c9_conclusion_exit_map_witness :
    conclusionOutcome (some "neutral") = ExitOutcome.infoOther "neutral" :=
  c9_conclusion_exit_map.2.2.2.2.1 "neutral" (by decide)

/-- A job snapshot whose steps array is NOT sorted by step number: steps 2
and 1, both completed, listed in the order [2, 1]. -/
def jobU : Job :=
  { id := 1, name := "build", status := JobStatus.inProgress, conclusion := none,
    started_at := none, completed_at := none, check_run_url := "cr/9",
    steps := [
      { name := "s2", number := 2, status := JobStatus.completed,
        conclusion := some JobConclusion.success },
      { name := "s1", number := 1, status := JobStatus.completed,
        conclusion := some JobConclusion.success } ] }

/-- C1 (code bug): on the snapshot `jobU`, whose newly completed steps are
iterated in the order [2, 1], the reconcile cycle leaves the cursor at 1 —
the number of the LAST iterated step — although the maximum step number
emitted this cycle is 2 (the events show both 2 and 1 were emitted).  The
spec requires the cursor to advance to the maximum. -/
theorem c1_cursor_last_iterated_not_max :
    (feedFinal script0 0 initState [jobU]).lastStep 1 = 1 ∧
    stepNumbersOf (feedEvents script0 0 initState [jobU]).flatten = [2, 1] ∧
    (feedFinal script0 0 initState [jobU]).lastStep 1 < 2 := by
  decide

/-- C2 (code bug): feeding the unsorted snapshot `jobU` twice in a row emits
the `StepCompleted` event for step 2 again on the second call (emission
sequence [2, 1, 2]), because the cursor was left at 1 — so the second call
does NOT produce zero new step events as the claim requires. -/
theorem c2_repoll_reemits_step :
    stepNumbersOf (feedEvents script0 0 initState [jobU, jobU]).flatten = [2, 1, 2] ∧
    (feedEvents script0 0 initState [jobU, jobU]).getLastD [] =
      [Event.stepCompleted 1 2 "s2" (some JobConclusion.success), Event.jobUpdated jobU] := by
  decide

/-- Counterexample to C3 as stated: for the single-poll sequence [`jobU`]
(steps listed in the order [2, 1]), the step numbers of the emitted
`StepCompleted` events are [2, 1], which is not strictly increasing. -/
theorem c3_counterexample :
    ¬ List.Pairwise (· < ·) (stepNumbersOf (feedEvents script0 0 initState [jobU]).flatten) := by
  decide

/-- The default-valued last element of a nonempty list is a member. -/
lemma getLastD_mem_of_ne_nil (l : List Nat) : ∀ d : Nat, l ≠ [] → l.getLastD d ∈ l := by
  induction l with
  | nil => intro d h; exact absurd rfl h
  | cons a t ih =>
    intro d _
    rw [List.getLastD_cons]
    cases t with
    | nil => simp [List.getLastD]
    | cons b t' => exact List.mem_cons_of_mem a (ih a (by simp))

/-- In a strictly sorted list every member is at most the last element. -/
lemma le_getLastD_of_pairwise (l : List Nat) :
    ∀ d : Nat, l.Pairwise (· < ·) → ∀ m ∈ l, m ≤ l.getLastD d := by
  induction l with
  | nil => intro d _ m hm; cases hm
  | cons a t ih =>
    intro d hp m hm
    rw [List.pairwise_cons] at hp
    obtain ⟨hhead, htail⟩ := hp
    rw [List.getLastD_cons]
    rcases List.mem_cons.1 hm with rfl | hmt
    · cases t with
      | nil => simp [List.getLastD]
      | cons b t' =>
        have hmem : (b :: t').getLastD m ∈ b :: t' := getLastD_mem_of_ne_nil _ m (by simp)
        exact le_of_lt (hhead _ hmem)
    · exact ih a htail m hmt

/-- The cursor after the print loop is the number of the last new step (or
unchanged when there is none). -/
lemma advanceCursor_eq : ∀ (ns : List Step) (last : Nat),
    advanceCursor last ns = (ns.map Step.number).getLastD last := by
  intro ns
  induction ns with
  | nil => intro last; rfl
  | cons s t ih =>
    intro last
    rw [List.map_cons, List.getLastD_cons, ← ih s.number]
    rfl

/-- Every new step passes the filter: its number is above the cursor and its
status is completed. -/
lemma newSteps_mem (steps : List Step) (last : Nat) :
    ∀ s ∈ newSteps steps last, last < s.number ∧ s.status = JobStatus.completed := by
  intro s hs
  simp only [newSteps, List.mem_filter, Bool.and_eq_true, decide_eq_true_eq] at hs
  exact hs.2

/-- Filtering preserves strict sortedness of the step numbers. -/
lemma newSteps_pairwise (steps : List Step) (last : Nat)
    (h : (steps.map Step.number).Pairwise (· < ·)) :
    ((newSteps steps last).map Step.number).Pairwise (· < ·) := by
  have h' : steps.Pairwise (fun a b => a.number < b.number) := List.pairwise_map.1 h
  exact List.pairwise_map.2 (h'.sublist (List.filter_sublist steps))

/-- The cursor never moves backwards in one cycle. -/
lemma last_le_advanceCursor (steps : List Step) (last : Nat) :
    last ≤ advanceCursor last (newSteps steps last) := by
  rw [advanceCursor_eq]
  cases hns : newSteps steps last with
  | nil => simp [List.getLastD]
  | cons s t =>
    have hmem : ((s :: t).map Step.number).getLastD last ∈ (s :: t).map Step.number :=
      getLastD_mem_of_ne_nil _ last (by simp)
    obtain ⟨s', hs', heq⟩ := List.mem_map.1 hmem
    have hlt := (newSteps_mem steps last s' (hns ▸ hs')).1
    omega

/-- With sorted step numbers, every step emitted in a cycle is bounded by
the cycle's final cursor. -/
lemma mem_le_advanceCursor (steps : List Step) (last : Nat)
    (h : (steps.map Step.number).Pairwise (· < ·)) :
    ∀ s ∈ newSteps steps last, s.number ≤ advanceCursor last (newSteps steps last) := by
  intro s hs
  rw [advanceCursor_eq]
  exact le_getLastD_of_pairwise _ last (newSteps_pairwise steps last h) s.number
    (List.mem_map_of_mem _ hs)

/-- Step numbers distribute over event-list concatenation. -/
lemma stepNumbersOf_append (l1 l2 : List Event) :
    stepNumbersOf (l1 ++ l2) = stepNumbersOf l1 ++ stepNumbersOf l2 := by
  simp [stepNumbersOf, List.filterMap_append]

/-- The step numbers of a cycle's step events are the new steps' numbers. -/
lemma stepNumbersOf_stepEvents (jid : Nat) (ns : List Step) :
    stepNumbersOf (stepEvents jid ns) = ns.map Step.number := by
  simp only [stepNumbersOf, stepEvents, List.filterMap_map, Function.comp]
  exact congr_fun (List.filterMap_eq_map _) ns

/-- Annotation events carry no step numbers. -/
lemma stepNumbersOf_eq_nil_of_ann (ae : List Event) (h : ∀ e ∈ ae, e.isAnnEv = true) :
    stepNumbersOf ae = [] := by
  refine List.filterMap_eq_nil_iff.2 fun e he => ?_
  cases e with
  | stepCompleted _ _ _ _ => simpa [Event.isAnnEv] using h _ he
  | jobUpdated _ => rfl
  | annEmitted _ _ => rfl

/-- The step numbers of one cycle's pre-annotation events. -/
lemma stepNumbersOf_cycleEvs (st : WatchState) (j : Job) :
    stepNumbersOf (cycleEvs st j) = (newSteps j.steps (st.lastStep j.id)).map Step.number := by
  rw [cycleEvs, stepNumbersOf_append, stepNumbersOf_stepEvents]
  simp [stepNumbersOf]

/-- No event of a cycle's pre-annotation list is an annotation event. -/
lemma cycleEvs_no_ann (st : WatchState) (j : Job) :
    ∀ e ∈ cycleEvs st j, e.isAnnEv = false := by
  intro e he
  rcases List.mem_append.1 he with h | h
  · obtain ⟨s, _, rfl⟩ := List.mem_map.1 h
    rfl
  · rcases List.mem_singleton.1 h with rfl
    rfl

/-- Shape of every successful `processJob` call: the returned cursor map is
the cursor update, and the events are the cycle's step/update events
followed by zero or more annotation events. -/
lemma processJob_ok_shape (script : FetchScript) (c : Nat) (st : WatchState) (j : Job)
    (st' : WatchState) (evs : List Event) (calls : List (Nat × Nat × Nat))
    (hok : processJob script c st j = Except.ok (st', evs, calls)) :
    st'.lastStep = (cursorUpd st j).lastStep ∧
    ∃ ae, evs = cycleEvs st j ++ ae ∧ (∀ e ∈ ae, e.isAnnEv = true) := by
  by_cases hj : j.status = JobStatus.completed
  · cases hu : check_run_id_from_url j.check_run_url with
    | none =>
      rw [processJob_completed_nourl script c st j hj hu] at hok
      simp only [Except.ok.injEq, Prod.mk.injEq] at hok
      obtain ⟨h1, h2, _⟩ := hok
      exact ⟨by rw [← h1], [], by simp [← h2], by simp⟩
    | some crid =>
      by_cases hm : st.annotated j.id = true
      · rw [processJob_completed_marked script c st j crid hj hu hm] at hok
        simp only [Except.ok.injEq, Prod.mk.injEq] at hok
        obtain ⟨h1, h2, _⟩ := hok
        exact ⟨by rw [← h1], [], by simp [← h2], by simp⟩
      · have hm' : st.annotated j.id = false := by
          revert hm; cases st.annotated j.id <;> simp
        cases ha : script.annResp c crid with
        | ok anns =>
          rw [processJob_completed_fresh script c st j crid anns hj hu hm' ha] at hok
          simp only [Except.ok.injEq, Prod.mk.injEq] at hok
          obtain ⟨h1, h2, _⟩ := hok
          refine ⟨by rw [← h1]; rfl, anns.map (fun a => Event.annEmitted j.id a), by rw [← h2], ?_⟩
          intro e he
          obtain ⟨a, _, rfl⟩ := List.mem_map.1 he
          rfl
        | error e =>
          cases e
          rw [processJob_completed_fresh_err script c st j crid hj hu hm' ha] at hok
          cases hok
  · rw [processJob_not_completed script c st j hj] at hok
    simp only [Except.ok.injEq, Prod.mk.injEq] at hok
    obtain ⟨h1, h2, _⟩ := hok
    exact ⟨by rw [← h1], [], by simp [← h2], by simp⟩

/-- Main per-job invariant: over a snapshot sequence of one job whose step
arrays are strictly sorted by number, the session succeeds, the cursor is
non-decreasing, the step numbers emitted across all cycles are strictly
increasing, every emitted number lies strictly above the initial cursor and
at most the final cursor, and each cycle's events are step events, then the
job update, then annotation events. -/
lemma feed_mono (script : FetchScript) (J : Nat)
    (hann : ∀ cy i, ∃ a, script.annResp cy i = Except.ok a) :
    ∀ (snaps : List Job) (c : Nat) (st : WatchState),
      (∀ j ∈ snaps, j.id = J) →
      (∀ j ∈ snaps, (j.steps.map Step.number).Pairwise (· < ·)) →
      ∃ st' evss calls, feedSnapshots script c st snaps = Except.ok (st', evss, calls) ∧
        st.lastStep J ≤ st'.lastStep J ∧
        (stepNumbersOf evss.flatten).Pairwise (· < ·) ∧
        (∀ m ∈ stepNumbersOf evss.flatten, st.lastStep J < m ∧ m ≤ st'.lastStep J) ∧
        (∀ evs ∈ evss, ∃ se jb ae, evs = se ++ Event.jobUpdated jb :: ae ∧
          (∀ e ∈ se, e.isStepEv = true) ∧ (∀ e ∈ ae, e.isAnnEv = true)) := by
  intro snaps
  induction snaps with
  | nil =>
    intro c st _ _
    exact ⟨st, [], [], rfl, le_refl _, by simp [stepNumbersOf], by simp [stepNumbersOf], by simp⟩
  | cons j rest ih =>
    intro c st hid hsorted
    have hidj : j.id = J := hid j (List.mem_cons_self j rest)
    have hsj : (j.steps.map Step.number).Pairwise (· < ·) := hsorted j (List.mem_cons_self j rest)
    obtain ⟨⟨st1, evs1, calls1⟩, hok⟩ := processJob_ok script c st j hann
    obtain ⟨hlast, ae, hevs, hae⟩ := processJob_ok_shape script c st j st1 evs1 calls1 hok
    have hcur : st1.lastStep J =
        advanceCursor (st.lastStep J) (newSteps j.steps (st.lastStep J)) := by
      rw [hlast]
      simp [cursorUpd, hidj]
    obtain ⟨st2, evss, calls, hfeed, hmono, hpw, hbound, hshape⟩ :=
      ih (c + 1) st1 (fun x hx => hid x (List.mem_cons_of_mem j hx))
        (fun x hx => hsorted x (List.mem_cons_of_mem j hx))
    have hnum1 : stepNumbersOf evs1 = (newSteps j.steps (st.lastStep J)).map Step.number := by
      rw [hevs, stepNumbersOf_append, stepNumbersOf_eq_nil_of_ann ae hae,
        stepNumbersOf_cycleEvs, hidj]
      simp
    have hadv_lo : st.lastStep J ≤ st1.lastStep J := by
      rw [hcur]; exact last_le_advanceCursor j.steps (st.lastStep J)
    have hmem_lo : ∀ m ∈ stepNumbersOf evs1, st.lastStep J < m := by
      intro m hm
      rw [hnum1] at hm
      obtain ⟨s, hs, rfl⟩ := List.mem_map.1 hm
      exact (newSteps_mem j.steps (st.lastStep J) s hs).1
    have hmem_hi : ∀ m ∈ stepNumbersOf evs1, m ≤ st1.lastStep J := by
      intro m hm
      rw [hnum1] at hm
      obtain ⟨s, hs, rfl⟩ := List.mem_map.1 hm
      rw [hcur]
      exact mem_le_advanceCursor j.steps (st.lastStep J) hsj s hs
    refine ⟨st2, evs1 :: evss, calls1 ++ calls, ?_, le_trans hadv_lo hmono, ?_, ?_, ?_⟩
    · simp [feedSnapshots, hok, hfeed]
    · rw [List.flatten_cons, stepNumbersOf_append]
      refine List.pairwise_append.2 ⟨?_, hpw, ?_⟩
      · rw [hnum1]
        exact newSteps_pairwise j.steps (st.lastStep J) hsj
      · intro a haa b hbb
        exact lt_of_le_of_lt (hmem_hi a haa) ((hbound b hbb).1)
    · rw [List.flatten_cons, stepNumbersOf_append]
      intro m hm
      rcases List.mem_append.1 hm with h | h
      · exact ⟨hmem_lo m h, le_trans (hmem_hi m h) hmono⟩
      · exact ⟨lt_of_le_of_lt hadv_lo ((hbound m h).1), (hbound m h).2⟩
    · intro evs hevs'
      rcases List.mem_cons.1 hevs' with rfl | h
      · refine ⟨stepEvents j.id (newSteps j.steps (st.lastStep j.id)), j, ae, ?_, ?_, hae⟩
        · rw [hevs, cycleEvs, List.append_assoc]
          rfl
        · intro e he
          obtain ⟨s, _, rfl⟩ := List.mem_map.1 he
          rfl
      · exact hshape evs h

/-- C3 (amended): for every job and poll sequence in which each snapshot's
steps array is sorted strictly ascending by step number — as the data model
guarantees (`number` is unique and ordered within its job) — the step
numbers of the `StepCompleted` events emitted across all cycles are
strictly increasing in emission order, and within one cycle the job's
step-completion events precede the job-update event, which precedes that
job's annotation events. -/
theorem c3_sorted_order (J : Nat) (snaps : List Job) (script : FetchScript)
    (hid : ∀ j ∈ snaps, j.id = J)
    (hsorted : ∀ j ∈ snaps, (j.steps.map Step.number).Pairwise (· < ·))
    (hann : ∀ cy i, ∃ a, script.annResp cy i = Except.ok a) :
    (stepNumbersOf (feedEvents script 0 initState snaps).flatten).Pairwise (· < ·) ∧
    (∀ evs ∈ feedEvents script 0 initState snaps, ∃ se jb ae,
      evs = se ++ Event.jobUpdated jb :: ae ∧
      (∀ e ∈ se, e.isStepEv = true) ∧ (∀ e ∈ ae, e.isAnnEv = true)) := by
  obtain ⟨st', evss, calls, hfeed, _, hpw, _, hshape⟩ :=
    feed_mono script J hann snaps 0 initState hid hsorted
  have he : feedEvents script 0 initState snaps = evss := by simp [feedEvents, hfeed]
  rw [he]
  exact ⟨hpw, hshape⟩

/-- First sorted snapshot of the C3 witness job: step 1 completed. -/
def jobS1 : Job :=
  { id := 1, name := "build", status := JobStatus.inProgress, conclusion := none,
    started_at := none, completed_at := none, check_run_url := "cr/9",
    steps := [
      { name := "s1", number := 1, status := JobStatus.completed,
        conclusion := some JobConclusion.success } ] }

/-- Second sorted snapshot of the C3 witness job: steps 1 and 2 completed,
job completed. -/
def jobS2 : Job :=
  { id := 1, name := "build", status := JobStatus.completed,
    conclusion := some JobConclusion.success,
    started_at := none, completed_at := none, check_run_url := "cr/9",
    steps := [
      { name := "s1", number := 1, status := JobStatus.completed,
        conclusion := some JobConclusion.success },
      { name := "s2", number := 2, status := JobStatus.completed,
        conclusion := some JobConclusion.failure } ] }

/-- Witness for C3 (amended) on a two-cycle sorted poll sequence. -/
theorem c3_sorted_order_witness :
    (∀ j ∈ [jobS1, jobS2], (j.steps.map Step.number).Pairwise (· < ·)) ∧
    (stepNumbersOf (feedEvents script0 0 initState [jobS1, jobS2]).flatten).Pairwise (· < ·) ∧
    (∀ evs ∈ feedEvents script0 0 initState [jobS1, jobS2], ∃ se jb ae,
      evs = se ++ Event.jobUpdated jb :: ae ∧
      (∀ e ∈ se, e.isStepEv = true) ∧ (∀ e ∈ ae, e.isAnnEv = true)) :=
  ⟨by decide,
   c3_sorted_order 1 [jobS1, jobS2] script0 (by decide) (by decide) (fun _ _ => ⟨[], rfl⟩)⟩

/-- Once a job id sits in the `annotated` set, a snapshot sequence of that
job performs no further annotation fetch calls, and the marker stays set. -/
lemma feed_calls_marked (script : FetchScript) (J crid : Nat) :
    ∀ (snaps : List Job) (c : Nat) (st : WatchState),
      (∀ j ∈ snaps, j.id = J) →
      (∀ j ∈ snaps, check_run_id_from_url j.check_run_url = some crid) →
      st.annotated J = true →
      ∃ st' evss, feedSnapshots script c st snaps = Except.ok (st', evss, []) ∧
        st'.annotated J = true := by
  intro snaps
  induction snaps with
  | nil => intro c st _ _ hm; exact ⟨st, [], rfl, hm⟩
  | cons j rest ih =>
    intro c st hid hurl hm
    have hidj : j.id = J := hid j (List.mem_cons_self j rest)
    have hm1 : (cursorUpd st j).annotated J = true := hm
    obtain ⟨st', evss, hfeed, hm'⟩ := ih (c + 1) (cursorUpd st j)
      (fun x hx => hid x (List.mem_cons_of_mem j hx))
      (fun x hx => hurl x (List.mem_cons_of_mem j hx)) hm1
    by_cases hj : j.status = JobStatus.completed
    · have hmm : st.annotated j.id = true := by rw [hidj]; exact hm
      have hpj := processJob_completed_marked script c st j crid hj
        (hurl j (List.mem_cons_self j rest)) hmm
      exact ⟨st', cycleEvs st j :: evss, by simp [feedSnapshots, hpj, hfeed], hm'⟩
    · have hpj := processJob_not_completed script c st j hj
      exact ⟨st', cycleEvs st j :: evss, by simp [feedSnapshots, hpj, hfeed], hm'⟩

/-- Starting from an unmarked job id, a snapshot sequence of that job
performs its annotation fetch exactly at the first snapshot with completed
status (and never if there is none). -/
lemma feed_calls_fresh (script : FetchScript) (J crid : Nat)
    (hann : ∀ cy i, ∃ a, script.annResp cy i = Except.ok a) :
    ∀ (snaps : List Job) (c : Nat) (st : WatchState),
      (∀ j ∈ snaps, j.id = J) →
      (∀ j ∈ snaps, check_run_id_from_url j.check_run_url = some crid) →
      st.annotated J = false →
      ∃ st' evss, feedSnapshots script c st snaps = Except.ok (st', evss,
        ((firstCompleted snaps).map (fun k => (c + k, J, crid))).toList) := by
  intro snaps
  induction snaps with
  | nil => intro c st _ _ _; exact ⟨st, [], by simp [feedSnapshots, firstCompleted]⟩
  | cons j rest ih =>
    intro c st hid hurl hm
    have hidj : j.id = J := hid j (List.mem_cons_self j rest)
    by_cases hj : j.status = JobStatus.completed
    · have hmm : st.annotated j.id = false := by rw [hidj]; exact hm
      obtain ⟨anns, ha⟩ := hann c crid
      have hpj := processJob_completed_fresh script c st j crid anns hj
        (hurl j (List.mem_cons_self j rest)) hmm ha
      have hm1 : (markUpd (cursorUpd st j) j.id).annotated J = true := by
        simp [markUpd, cursorUpd, hidj]
      obtain ⟨st', evss, hfeed, _⟩ := feed_calls_marked script J crid rest (c + 1)
        (markUpd (cursorUpd st j) j.id) (fun x hx => hid x (List.mem_cons_of_mem j hx))
        (fun x hx => hurl x (List.mem_cons_of_mem j hx)) hm1
      rw [hidj] at hpj hfeed
      refine ⟨st', (cycleEvs st j ++ anns.map (fun a => Event.annEmitted J a)) :: evss, ?_⟩
      simp [feedSnapshots, hpj, hfeed, firstCompleted, hj]
    · have hpj := processJob_not_completed script c st j hj
      have hm1 : (cursorUpd st j).annotated J = false := hm
      obtain ⟨st', evss, hfeed⟩ := ih (c + 1) (cursorUpd st j)
        (fun x hx => hid x (List.mem_cons_of_mem j hx))
        (fun x hx => hurl x (List.mem_cons_of_mem j hx)) hm1
      refine ⟨st', cycleEvs st j :: evss, ?_⟩
      simp only [feedSnapshots, hpj, hfeed, firstCompleted, hj, if_false, List.nil_append]
      cases hfc : firstCompleted rest with
      | none => simp [hfc]
      | some k =>
        simp [hfc]
        omega

/-- C4: for a job whose check-run URL parses to a fixed id, the annotation
fetch is performed at most once per watch session — exactly in the cycle of
the first snapshot with completed status (and never when no snapshot
completes) — and when the fetch fails, the `annotated` marker was already
inserted and the failure aborts the session, so the job's annotations are
never fetched again. -/
theorem c4_annotations_once (J crid : Nat) (snaps : List Job) (script : FetchScript)
    (hid : ∀ j ∈ snaps, j.id = J)
    (hurl : ∀ j ∈ snaps, check_run_id_from_url j.check_run_url = some crid)
    (hann : ∀ cy i, ∃ a, script.annResp cy i = Except.ok a) :
    feedCalls script 0 initState snaps =
      ((firstCompleted snaps).map (fun k => (k, J, crid))).toList ∧
    (feedCalls script 0 initState snaps).length ≤ 1 ∧
    (∀ (script2 : FetchScript) (c : Nat) (st : WatchState) (j : Job), j.id = J →
      j.status = JobStatus.completed → check_run_id_from_url j.check_run_url = some crid →
      st.annotated J = false → script2.annResp c crid = Except.error () →
      processJob script2 c st j = Except.error ()) := by
  obtain ⟨st', evss, hfeed⟩ := feed_calls_fresh script J crid hann snaps 0 initState hid hurl rfl
  have heq : feedCalls script 0 initState snaps =
      ((firstCompleted snaps).map (fun k => (k, J, crid))).toList := by
    simp [feedCalls, hfeed]
  refine ⟨heq, ?_, ?_⟩
  · rw [heq]
    cases firstCompleted snaps <;> simp
  · intro script2 c st j hidj hj hu hm ha
    exact processJob_completed_fresh_err script2 c st j crid hj hu (by rw [hidj]; exact hm) ha

/-- An in-progress snapshot of the C4 witness job (id 1, check-run 77). -/
def jobPre : Job :=
  { id := 1, name := "test", status := JobStatus.inProgress, conclusion := none,
    started_at := none, completed_at := none, check_run_url := "cr/77", steps := [] }

/-- A completed snapshot of the C4 witness job (id 1, check-run 77). -/
def jobDone : Job :=
  { id := 1, name := "test", status := JobStatus.completed,
    conclusion := some JobConclusion.success,
    started_at := none, completed_at := none, check_run_url := "cr/77", steps := [] }

/-- Witness for C4: over three polls (in progress, completed, completed), the
single annotation fetch happens in the second cycle, when the job is first
observed completed. -/
theorem c4_annotations_once_witness :
    (∀ j ∈ [jobPre, jobDone, jobDone], check_run_id_from_url j.check_run_url = some 77) ∧
    feedCalls script0 0 initState [jobPre, jobDone, jobDone] = [(1, 1, 77)] := by
  have h := c4_annotations_once 1 77 [jobPre, jobDone, jobDone] script0
    (by decide) (by decide) (fun _ _ => ⟨[], rfl⟩)
  exact ⟨by decide, h.1.trans (by decide)⟩

/-- A snapshot sequence of one job whose check-run URL never parses performs
no annotation fetch at all: the session never fails, no call is made, the
job is never marked annotated, and no annotation event is emitted — in every
cycle, also after the job completes. -/
lemma feed_badurl (script : FetchScript) (J : Nat) :
    ∀ (snaps : List Job) (c : Nat) (st : WatchState),
      (∀ j ∈ snaps, j.id = J) →
      (∀ j ∈ snaps, check_run_id_from_url j.check_run_url = none) →
      st.annotated J = false →
      ∃ st' evss, feedSnapshots script c st snaps = Except.ok (st', evss, []) ∧
        st'.annotated J = false ∧
        (∀ evs ∈ evss, ∀ e ∈ evs, e.isAnnEv = false) := by
  intro snaps
  induction snaps with
  | nil => intro c st _ _ hm; exact ⟨st, [], rfl, hm, by simp⟩
  | cons j rest ih =>
    intro c st hid hurl hm
    have hm1 : (cursorUpd st j).annotated J = false := hm
    obtain ⟨st', evss, hfeed, hm', hne⟩ := ih (c + 1) (cursorUpd st j)
      (fun x hx => hid x (List.mem_cons_of_mem j hx))
      (fun x hx => hurl x (List.mem_cons_of_mem j hx)) hm1
    have hpj : processJob script c st j = Except.ok (cursorUpd st j, cycleEvs st j, []) := by
      by_cases hj : j.status = JobStatus.completed
      · exact processJob_completed_nourl script c st j hj (hurl j (List.mem_cons_self j rest))
      · exact processJob_not_completed script c st j hj
    refine ⟨st', cycleEvs st j :: evss, by simp [feedSnapshots, hpj, hfeed], hm', ?_⟩
    intro evs hevs e he
    rcases List.mem_cons.1 hevs with rfl | h
    · exact cycleEvs_no_ann st j e he
    · exact hne evs h e he

/-- C10: for a job whose `check_run_url`'s trailing path segment does not
parse as an unsigned 64-bit integer, `check_run_id_from_url` returns `none`
and the watch loop never fetches annotations for that job and never marks
it annotated, in every cycle, also after the job reaches completed status —
the job is silently skipped, with no annotation events and no error. -/
theorem c10_unparseable_url (J : Nat) (snaps : List Job) (script : FetchScript)
    (hid : ∀ j ∈ snaps, j.id = J)
    (hurl : ∀ j ∈ snaps, parseU64 (lastSegment j.check_run_url) = none) :
    (∀ j ∈ snaps, check_run_id_from_url j.check_run_url = none) ∧
    ∃ st' evss, feedSnapshots script 0 initState snaps = Except.ok (st', evss, []) ∧
      st'.annotated J = false ∧
      (∀ evs ∈ evss, ∀ e ∈ evs, e.isAnnEv = false) :=
  ⟨fun j hj => hurl j hj,
   feed_badurl script J snaps 0 initState hid (fun j hj => hurl j hj) rfl⟩

/-- A completed job whose check-run URL's trailing segment "xyz" is not a
number, used to witness C10. -/
def jobBad : Job :=
  { id := 4, name := "lint", status := JobStatus.completed,
    conclusion := some JobConclusion.success,
    started_at := none, completed_at := none, check_run_url := "cr/xyz", steps := [] }

/-- Witness for C10: two polls of the completed `jobBad` produce no fetch
call, no annotation event, no marker, and no error. -/
theorem c10_unparseable_url_witness :
    parseU64 (lastSegment "cr/xyz") = none ∧
    ((∀ j ∈ [jobBad, jobBad], check_run_id_from_url j.check_run_url = none) ∧
     ∃ st' evss, feedSnapshots script0 0 initState [jobBad, jobBad] = Except.ok (st', evss, []) ∧
       st'.annotated 4 = false ∧
       (∀ evs ∈ evss, ∀ e ∈ evs, e.isAnnEv = false)) :=
  ⟨by decide, c10_unparseable_url 4 [jobBad, jobBad] script0 (by decide) (by decide)⟩
